import Mathlib

/-!
Verification development for the news-collection pipeline in `src/collect.py`.

The Python source is shallowly embedded: pure string manipulation is
modelled over `List Char` (with `String` wrappers at the boundaries),
calendar dates and datetimes are modelled as integers (day numbers,
respectively minutes), and the two external date-parsing collaborators
(`dateutil.parser.parse` in its two roles) are abstracted as function
parameters of type `String → Option Int` / structured result options.
-/

namespace Collect

/-! ### Generic character-list helpers (models of Python `str` methods) -/

/-- Model of Python `str.strip()`: drop whitespace from both ends. -/
def stripWS (cs : List Char) : List Char :=
  ((cs.dropWhile Char.isWhitespace).reverse.dropWhile Char.isWhitespace).reverse

/-- Model of Python `str.rstrip("/")`: drop trailing slashes. -/
def rstripSlash (cs : List Char) : List Char :=
  (cs.reverse.dropWhile (fun c => c = '/')).reverse

/-- Does `cs` start with `pre`? (Python `str.startswith`.) -/
def startsWithL (cs pre : List Char) : Bool :=
  cs.take pre.length = pre

/-- Does `cs` end with `suf`? (Python `str.endswith`.) -/
def endsWithL (cs suf : List Char) : Bool :=
  cs.reverse.take suf.length = suf.reverse

/-- Remove a suffix of length `n` from the end of `cs`. -/
def dropEnd (cs : List Char) (n : Nat) : List Char :=
  (cs.reverse.drop n).reverse

/-- Split `cs` at the first character satisfying `p`; the second component
starts with that character (or is empty when no character satisfies `p`). -/
def breakWhen (p : Char → Bool) : List Char → List Char × List Char
  | [] => ([], [])
  | c :: cs =>
    if p c then ([], c :: cs)
    else (c :: (breakWhen p cs).1, (breakWhen p cs).2)

/-- Numeric value of a list of decimal digit characters (Python `int`,
restricted to unsigned digit strings; `none` models `ValueError`). -/
def digitsToNat (ds : List Char) : Option Nat :=
  if ds = [] then none
  else if ds.all Char.isDigit then
    some (ds.foldl (fun a c => a * 10 + (c.toNat - 48)) 0)
  else none

/-- Model of Python `int(s)` on an optionally signed decimal string;
`none` models the `ValueError` exception. -/
def pyInt (cs : List Char) : Option Int :=
  match stripWS cs with
  | '-' :: ds => (digitsToNat ds).map (fun n => -(n : Int))
  | '+' :: ds => (digitsToNat ds).map (fun n => (n : Int))
  | ds => (digitsToNat ds).map (fun n => (n : Int))

/-! ### Calendar arithmetic

Dates are day numbers (days since 1970-01-01, negative allowed),
datetimes are minutes since the same epoch. -/

/-- Day number of the civil date `y-m-d` (standard Gregorian algorithm). -/
def daysFromCivil (y m d : Int) : Int :=
  let y := if m ≤ 2 then y - 1 else y
  let era := (if 0 ≤ y then y else y - 399).fdiv 400
  let yoe := y - era * 400
  let mp := if 2 < m then m - 3 else m + 9
  let doy := (153 * mp + 2).fdiv 5 + d - 1
  let doe := yoe * 365 + yoe.fdiv 4 - yoe.fdiv 100 + doy
  era * 146097 + doe - 719468

/-- Civil date `(y, m, d)` of a day number (inverse of `daysFromCivil`). -/
def civilFromDays (z0 : Int) : Int × Int × Int :=
  let z := z0 + 719468
  let era := (if 0 ≤ z then z else z - 146096).fdiv 146097
  let doe := z - era * 146097
  let yoe := (doe - doe.fdiv 1460 + doe.fdiv 36524 - doe.fdiv 146096).fdiv 365
  let y := yoe + era * 400
  let doy := doe - (365 * yoe + yoe.fdiv 4 - yoe.fdiv 100)
  let mp := (5 * doy + 2).fdiv 153
  let d := doy - (153 * mp + 2).fdiv 5 + 1
  let m := if mp < 10 then mp + 3 else mp - 9
  (if m ≤ 2 then y + 1 else y, m, d)

/-- Decimal digit characters of a natural number, left-padded with zeros
to width `w` (Python `f"{n:0wd}"` for non-negative `n`). -/
def padNum (w : Nat) (n : Nat) : List Char :=
  let ds := Nat.toDigits 10 n
  List.replicate (w - ds.length) '0' ++ ds

/-- Zero-padded `YYYY-MM-DD` rendering used throughout the script. -/
def fmtDate (y mo d : Nat) : List Char :=
  padNum 4 y ++ '-' :: padNum 2 mo ++ '-' :: padNum 2 d

/-- ISO rendering of a day number (`datetime.date.isoformat`). -/
def isoOfDay (z : Int) : String :=
  let c := civilFromDays z
  String.mk (fmtDate c.1.toNat c.2.1.toNat c.2.2.toNat)

/-- Executable parse of a plain `YYYY-MM-DD` string into a day number.
This is a faithful model of `dateutil.parser.parse(s).date()` on exact ISO
date strings; it is used to instantiate the abstract parser parameters in
witnesses and counterexamples. -/
def parseIsoDate (s : String) : Option Int :=
  match s.data.splitOn '-' with
  | [ys, ms, ds] =>
    if ys.length = 4 ∧ ms.length = 2 ∧ ds.length = 2 then
      match digitsToNat ys, digitsToNat ms, digitsToNat ds with
      | some y, some m, some d =>
        if 1 ≤ m ∧ m ≤ 12 ∧ 1 ≤ d ∧ d ≤ 31 then
          some (daysFromCivil (y : Int) (m : Int) (d : Int))
        else none
      | _, _, _ => none
    else none
  | _ => none

/-- Minutes-since-epoch parse of a plain ISO date string (midnight);
models `dateutil.parser.parse` in the datetime role. -/
def parseIsoMinutes (s : String) : Option Int :=
  (parseIsoDate s).map (fun d => d * 1440)

/-! ### URL splitting (model of `urllib.parse.urlsplit` / `urlunsplit`) -/

/-- Characters permitted in a URL scheme. -/
def isSchemeChar (c : Char) : Bool :=
  c.isAlpha || c.isDigit || c = '+' || c = '-' || c = '.'

/-- Does `cs` qualify as a scheme for `urlsplit` (non-empty, leading
letter, only scheme characters)? -/
def schemeOK : List Char → Bool
  | [] => false
  | c :: cs => c.isAlpha && (c :: cs).all isSchemeChar

/-- Delimiters ending the network-location part. -/
def netlocDelim (c : Char) : Bool :=
  c = '/' || c = '?' || c = '#'

/-- Model of `urllib.parse.urlsplit`, returning
`(scheme, netloc, path, query, fragment)`. -/
def urlsplitL (cs : List Char) : List Char × List Char × List Char × List Char × List Char :=
  let s0 := breakWhen (fun c => c = ':') cs
  let su : List Char × List Char :=
    match s0.2 with
    | ':' :: r => if schemeOK s0.1 then (s0.1.map Char.toLower, r) else ([], cs)
    | _ => ([], cs)
  let nu : List Char × List Char :=
    match su.2 with
    | '/' :: '/' :: r => breakWhen netlocDelim r
    | u => ([], u)
  let uf := breakWhen (fun c => c = '#') nu.2
  let pq := breakWhen (fun c => c = '?') uf.1
  (su.1, nu.1, pq.1, pq.2.drop 1, uf.2.drop 1)

/-- Model of `urllib.parse.urlunsplit` specialised to an empty scheme and
an empty fragment, as used by `canonicalize_url_for_dedup`. -/
def urlunsplitL (netloc path query : List Char) : List Char :=
  let url :=
    if netloc ≠ [] ∨ path.take 2 = ['/', '/'] then
      '/' :: '/' :: (netloc ++
        (match path with
         | [] => []
         | c :: _ => if c = '/' then path else '/' :: path))
    else path
  if query = [] then url else url ++ '?' :: query

/-! ### Source functions: URL handling -/

/-- Embedding of `normalize_url(base, href)` from `collect.py`. -/
def normalize_url (base href : String) : String :=
  let h := stripWS href.data
  if startsWithL h "http://".data || startsWithL h "https://".data then
    String.mk h
  else if startsWithL h "//".data then
    String.mk ("https:".data ++ h)
  else if startsWithL h "/".data then
    String.mk (rstripSlash base.data ++ h)
  else
    String.mk (rstripSlash base.data ++ '/' :: h)

/-- The `u.startswith("//")` pre-step of `canonicalize_url_for_dedup`:
protocol-relative input gets an `https:` prefix. -/
def protoRel (u : List Char) : List Char :=
  if startsWithL u "//".data then "https:".data ++ u else u

/-- The netloc normalization step: strip a leading `www.` (the host is
lower-cased before this is applied). -/
def wwwStrip (netloc : List Char) : List Char :=
  if startsWithL netloc "www.".data then netloc.drop 4 else netloc

/-- The `path or "/"` step. -/
def emptyToRoot (p : List Char) : List Char :=
  if p = [] then ['/'] else p

/-- The trailing-slash step: strip one trailing slash unless the path is
exactly `/`. -/
def slashStrip (path : List Char) : List Char :=
  if path ≠ ['/'] ∧ path.getLast? = some '/' then path.dropLast else path

/-- The query suffix appended by `urlunsplit` (empty queries vanish). -/
def queryPart (q : List Char) : List Char :=
  if q = [] then [] else '?' :: q

/-- Core of `canonicalize_url_for_dedup(url)` over character lists,
composed of the steps above exactly as in the source.  The Python
`try/except` wrapper is not modelled: no step of this model raises (the
bracket `ValueError` of `urlsplit` is outside the claims). -/
def canonKeyL (cs : List Char) : List Char :=
  urlunsplitL
    (wwwStrip ((urlsplitL (protoRel (stripWS cs))).2.1.map Char.toLower))
    (slashStrip (emptyToRoot (urlsplitL (protoRel (stripWS cs))).2.2.1))
    (urlsplitL (protoRel (stripWS cs))).2.2.2.1

/-- Embedding of `canonicalize_url_for_dedup(url)` from `collect.py`. -/
def canonicalize_url_for_dedup (url : String) : String :=
  String.mk (canonKeyL url.data)

/-! ### Date patterns (the fixed regexes in `DATE_PATTERNS`)

Each matcher models one compiled pattern applied at a fixed position;
`searchFrom` models `re.search` (leftmost match wins). -/

/-- Consume exactly `k` decimal digits, returning their value. -/
def takeDigits : Nat → List Char → Option (Nat × List Char)
  | 0, cs => some (0, cs)
  | k + 1, c :: cs =>
    if c.isDigit then
      (takeDigits k cs).map (fun r => ((c.toNat - 48) * 10 ^ k + r.1, r.2))
    else none
  | _ + 1, [] => none

/-- Consume one separator character drawn from `seps`. -/
def takeSep (seps : List Char) : List Char → Option (List Char)
  | c :: cs => if c ∈ seps then some cs else none
  | [] => none

/-- Greedy `\d{1,2}` followed by a required separator, with the
regex-engine backtracking from two digits to one. -/
def takeD12Sep (seps : List Char) (cs : List Char) : Option (Nat × List Char) :=
  match takeDigits 2 cs with
  | some (n, r) =>
    match takeSep seps r with
    | some r2 => some (n, r2)
    | none =>
      match takeDigits 1 cs with
      | some (n1, r1) => (takeSep seps r1).map (fun r2 => (n1, r2))
      | none => none
  | none =>
    match takeDigits 1 cs with
    | some (n1, r1) => (takeSep seps r1).map (fun r2 => (n1, r2))
    | none => none

/-- Trailing greedy `\d{1,2}` (no continuation constraint). -/
def takeD12 (cs : List Char) : Option Nat :=
  match takeDigits 2 cs with
  | some (n, _) => some n
  | none =>
    match takeDigits 1 cs with
    | some (n, _) => some n
    | none => none

/-- Match `(\d{4})SEP(\d{1,2})SEP(\d{1,2})` at the current position, where
`SEP` is a character class; models patterns 1 and 3 of `DATE_PATTERNS`. -/
def matchSepPat (seps : List Char) (cs : List Char) : Option (Nat × Nat × Nat) :=
  match takeDigits 4 cs with
  | none => none
  | some (y, r1) =>
    match takeSep seps r1 with
    | none => none
    | some r2 =>
      match takeD12Sep seps r2 with
      | none => none
      | some (mo, r3) => (takeD12 r3).map (fun d => (y, mo, d))

/-- Skip `\s*`. -/
def skipWS (cs : List Char) : List Char :=
  cs.dropWhile Char.isWhitespace

/-- Consume one fixed character after optional whitespace (`\s*CH`). -/
def takeWSChar (ch : Char) (cs : List Char) : Option (List Char) :=
  match skipWS cs with
  | c :: r => if c = ch then some r else none
  | [] => none

/-- Greedy `\d{1,2}` followed by `\s*CH`, with backtracking. -/
def takeD12WSChar (ch : Char) (cs : List Char) : Option (Nat × List Char) :=
  match takeDigits 2 cs with
  | some (n, r) =>
    match takeWSChar ch r with
    | some r2 => some (n, r2)
    | none =>
      match takeDigits 1 cs with
      | some (n1, r1) => (takeWSChar ch r1).map (fun r2 => (n1, r2))
      | none => none
  | none =>
    match takeDigits 1 cs with
    | some (n1, r1) => (takeWSChar ch r1).map (fun r2 => (n1, r2))
    | none => none

/-- Match `(\d{4})\s*年\s*(\d{1,2})\s*月\s*(\d{1,2})\s*日` at the current
position (pattern 2 of `DATE_PATTERNS`). -/
def matchCJKPat (cs : List Char) : Option (Nat × Nat × Nat) :=
  match takeDigits 4 cs with
  | none => none
  | some (y, r1) =>
    match takeWSChar '年' r1 with
    | none => none
    | some r2 =>
      match takeD12WSChar '月' (skipWS r2) with
      | none => none
      | some (mo, r3) =>
        match takeD12WSChar '日' (skipWS r3) with
        | none => none
        | some (d, _) => some (y, mo, d)

/-- Model of `pattern.search`: try the matcher at each successive start
position, leftmost success wins. -/
def searchFrom (m : List Char → Option (Nat × Nat × Nat)) :
    List Char → Option (Nat × Nat × Nat)
  | [] => none
  | c :: cs =>
    match m (c :: cs) with
    | some t => some t
    | none => searchFrom m cs

/-- The three fixed matchers, in the priority order of `DATE_PATTERNS`. -/
def datePatternList : List (List Char → Option (Nat × Nat × Nat)) :=
  [matchSepPat ['-', '/'], matchCJKPat, matchSepPat ['.']]

/-- First pattern (in priority order) that matches anywhere in the text. -/
def firstPatternMatch (cs : List Char) : Option (Nat × Nat × Nat) :=
  (datePatternList.map (fun m => searchFrom m cs)).foldl
    (fun a b => match a with | some t => some t | none => b) none

/-- Embedding of `extract_date(text)` from `collect.py`.  The permissive
fallback `dateutil.parser.parse(text, fuzzy=True)` is an external
collaborator, abstracted as `fb` returning a `(year, month, day)` triple
(`none` models its exceptions).  The `try/except` around the f-string
formatting is modelled by the plain format: formatting an integer never
raises, so the `except` branch of the source is unreachable. -/
def extract_date (fb : String → Option (Nat × Nat × Nat)) (text : String) : Option String :=
  if text.data = [] then none
  else
    match firstPatternMatch text.data with
    | some (y, mo, d) => some (String.mk (fmtDate y mo d))
    | none =>
      match fb text with
      | some (y, mo, d) => if 2000 ≤ y then some (String.mk (fmtDate y mo d)) else none
      | none => none

/-! ### Time-window gate -/

/-- Embedding of `within_window(pub_date, now, window_days, hard_cap_days)`.
Calendar dates are day numbers; `now` is the day number of `now.date()`
(subtracting a whole-day `timedelta` before `.date()` commutes with this).
`parse` abstracts `dateutil.parser.parse(pub_date).date()`, with `none`
modelling the caught exception. -/
def within_window (parse : String → Option Int) (pub_date : Option String)
    (now window_days hard_cap_days : Int) : Bool :=
  match pub_date with
  | none => true
  | some s =>
    match parse s with
    | none => true
    | some d =>
      let lower := now - hard_cap_days
      let upper := now
      if ¬ (lower ≤ d ∧ d ≤ upper) then false
      else decide (now - window_days ≤ d) || true

/-! ### Items and qqnews search entries -/

/-- Embedding of the `Item` dataclass. -/
structure Item where
  title : String
  publisher : String
  url : String
  pub_date : Option String
  source : String
  fetched_at : String
deriving DecidableEq, Repr

/-- Embedding of `_parse_qqnews_time_to_dt(s, now)`.  Datetimes are
minutes since the epoch; `absParse` abstracts the absolute-time branch
(`dateutil.parser.parse(s, fuzzy=True)` normalized to UTC+8), with `none`
modelling its exception.  A failed `int(...)` inside a recognized relative
suffix raises in the source and control falls to the absolute branch,
which the `none` arms below reproduce.  Suffix removal models
`str.replace(suffix, "")` for the single-trailing-occurrence case. -/
def parseQQTime (absParse : String → Option Int) (s : String) (now : Int) : Option Int :=
  let t := stripWS s.data
  if t = [] then none
  else if endsWithL t "分钟前".data then
    match pyInt (dropEnd t 3) with
    | some n => some (now - n)
    | none => absParse (String.mk t)
  else if endsWithL t "小时前".data then
    match pyInt (dropEnd t 3) with
    | some n => some (now - 60 * n)
    | none => absParse (String.mk t)
  else if endsWithL t "天前".data then
    match pyInt (dropEnd t 2) with
    | some n => some (now - 1440 * n)
    | none => absParse (String.mk t)
  else absParse (String.mk t)

/-- Embedding of the per-entry body of the `newsList` loop in
`parse_qqnews_search` (title/url gate, time resolution, freshness
threshold, item construction).  `now` and `threshold` are minutes;
`threshold = now - window_days` in day units times 1440. -/
def qqnewsProcessEntry (absParse : String → Option Int)
    (title url time_ publisher : String) (now threshold : Int)
    (query fetched_at : String) : Option Item :=
  let t := String.mk (stripWS title.data)
  let u := String.mk (stripWS url.data)
  if t = "" ∨ u = "" then none
  else
    match parseQQTime absParse time_ now with
    | none => none
    | some dt =>
      if dt < threshold then none
      else
        some { title := t, publisher := publisher, url := u,
               pub_date := some (isoOfDay (dt.fdiv 1440)),
               source := "腾讯新闻搜索-" ++ query, fetched_at := fetched_at }

/-! ### Intra-batch deduplication (the `uniq` loops of the home parsers) -/

/-- Python truthiness of the optional `pub_date` field. -/
def pdTruthy : Option String → Bool
  | none => false
  | some s => decide (s ≠ "")

/-- The tie-break between the item already stored under a key and a newly
seen item with the same key (body of the `else` branch of the `uniq`
loop).  `parse` abstracts `dateutil.parser.parse`; either side failing to
parse models the caught exception (keep the old item). -/
def tieBreak (parse : String → Option Int) (old new_ : Item) : Item :=
  if ¬ pdTruthy old.pub_date = true ∧ pdTruthy new_.pub_date = true then new_
  else if pdTruthy old.pub_date = true ∧ pdTruthy new_.pub_date = true then
    match parse (new_.pub_date.getD ""), parse (old.pub_date.getD "") with
    | some a, some b => if b < a then new_ else old
    | _, _ => old
  else old

/-- One step of the `uniq` loop: insertion-ordered association list,
updated in place on a key collision. -/
def dedupInsert (parse : String → Option Int) (acc : List (String × Item))
    (it : Item) : List (String × Item) :=
  let k := canonicalize_url_for_dedup it.url
  if acc.any (fun p => p.1 = k) then
    acc.map (fun p => if p.1 = k then (p.1, tieBreak parse p.2 it) else p)
  else acc ++ [(k, it)]

/-- Embedding of the intra-batch dedup loop (`uniq` dict plus
`list(uniq.values())`), shared by `parse_miit_home` and `parse_gov_home`. -/
def intraDedup (parse : String → Option Int) (batch : List Item) : List Item :=
  (batch.foldl (dedupInsert parse) []).map (fun p => p.2)

/-! ### Store merge (`dedup_merge`) -/

/-- One persisted row (the fixed six named columns of the store table;
`pubDate` holds the empty string where the source writes `""`). -/
structure Row where
  title : String
  publisher : String
  url : String
  pubDate : String
  source : String
  fetchedAt : String
deriving DecidableEq, Repr

/-- The row dict appended for a new item (`it.pub_date or ""`). -/
def rowOfItem (it : Item) : Row :=
  { title := it.title, publisher := it.publisher, url := it.url,
    pubDate := (it.pub_date.getD ""), source := it.source,
    fetchedAt := it.fetched_at }

/-- The existing-URL set (`set(existing["新闻URL"])`), as a list. -/
def existingUrls (rows : List Row) : List String :=
  rows.map (fun r => r.url)

/-- The append loop of `dedup_merge`: returns the appended rows (in
order) and the added count, threading the growing URL set. -/
def mergeLoop (urls : List String) : List Item → List Row × Nat
  | [] => ([], 0)
  | it :: rest =>
    if it.url ∈ urls then mergeLoop urls rest
    else (rowOfItem it :: (mergeLoop (it.url :: urls) rest).1,
          (mergeLoop (it.url :: urls) rest).2 + 1)

/-- The sort key of `dedup_merge` (`__sortdate`, with empty dates mapped
to the sentinel `"0000-00-00"`). -/
def sortDateKey (r : Row) : String :=
  if r.pubDate = "" then "0000-00-00" else r.pubDate

/-- Row ordering of the final sort: `__sortdate` descending, then
`抓取时间` (fetchedAt) descending.  `pandas.sort_values` on several
columns lexsorts stably, which stable insertion sort models. -/
def rowLE (a b : Row) : Prop :=
  sortDateKey b < sortDateKey a ∨
    (sortDateKey a = sortDateKey b ∧ b.fetchedAt ≤ a.fetchedAt)

instance : DecidableRel rowLE := fun a b => by
  unfold rowLE; infer_instance

instance : IsTotal Row rowLE where
  total a b := by
    unfold rowLE
    rcases lt_trichotomy (sortDateKey a) (sortDateKey b) with h | h | h
    · exact Or.inr (Or.inl h)
    · rcases le_total a.fetchedAt b.fetchedAt with h2 | h2
      · exact Or.inr (Or.inr ⟨h.symm, h2⟩)
      · exact Or.inl (Or.inr ⟨h, h2⟩)
    · exact Or.inl (Or.inl h)

instance : IsTrans Row rowLE where
  trans a b c hab hbc := by
    rcases hab with h1 | ⟨e1, f1⟩
    · rcases hbc with h2 | ⟨e2, f2⟩
      · exact Or.inl (lt_trans h2 h1)
      · exact Or.inl (e2 ▸ h1)
    · rcases hbc with h2 | ⟨e2, f2⟩
      · exact Or.inl (e1 ▸ h2)
      · exact Or.inr ⟨e1.trans e2, le_trans f2 f1⟩

/-- The final re-sort of `dedup_merge`. -/
def sortRows (l : List Row) : List Row :=
  List.insertionSort rowLE l

/-- Embedding of `dedup_merge(existing, new_items)`: returns the merged,
re-sorted table and the added count. -/
def dedup_merge (existing : List Row) (batch : List Item) : List Row × Nat :=
  (sortRows (existing ++ (mergeLoop (existingUrls existing) batch).1),
   (mergeLoop (existingUrls existing) batch).2)

/-! ### Lemmas about the merge loop and the final sort -/

theorem mergeLoop_eq_nil (urls : List String) (batch : List Item)
    (h : ∀ it ∈ batch, it.url ∈ urls) : mergeLoop urls batch = ([], 0) := by
  induction batch with
  | nil => rfl
  | cons b rest ih =>
    have hb : b.url ∈ urls := h b (List.mem_cons_self _ _)
    simp only [mergeLoop, if_pos hb]
    exact ih (fun x hx => h x (List.mem_cons_of_mem _ hx))

theorem mergeLoop_url_covered (urls : List String) (batch : List Item) :
    ∀ it ∈ batch, it.url ∈ urls ∨
      it.url ∈ (mergeLoop urls batch).1.map (fun r => r.url) := by
  induction batch generalizing urls with
  | nil => intro it h; cases h
  | cons b rest ih =>
    intro it hit
    by_cases hb : b.url ∈ urls
    · simp only [mergeLoop, if_pos hb]
      rcases List.mem_cons.mp hit with rfl | hrest
      · exact Or.inl hb
      · exact ih urls it hrest
    · simp only [mergeLoop, if_neg hb, List.map_cons, List.mem_cons]
      rcases List.mem_cons.mp hit with rfl | hrest
      · exact Or.inr (Or.inl rfl)
      · rcases ih (b.url :: urls) it hrest with hu | hr
        · rcases List.mem_cons.mp hu with he | hu2
          · exact Or.inr (Or.inl he)
          · exact Or.inl hu2
        · exact Or.inr (Or.inr hr)

theorem mergeLoop_fresh (urls : List String) (batch : List Item) :
    (∀ r ∈ (mergeLoop urls batch).1, r.url ∉ urls) ∧
      ((mergeLoop urls batch).1.map (fun r => r.url)).Nodup := by
  induction batch generalizing urls with
  | nil => exact ⟨fun r h => absurd h (List.not_mem_nil r), List.nodup_nil⟩
  | cons b rest ih =>
    by_cases hb : b.url ∈ urls
    · simpa only [mergeLoop, if_pos hb] using ih urls
    · have h2 := ih (b.url :: urls)
      simp only [mergeLoop, if_neg hb, List.map_cons, List.nodup_cons]
      refine ⟨?_, ?_, h2.2⟩
      · intro r hr
        rcases List.mem_cons.mp hr with rfl | hr2
        · simpa [rowOfItem] using hb
        · exact fun hmem => (h2.1 r hr2) (List.mem_cons_of_mem _ hmem)
      · intro hmem
        rcases List.mem_map.mp hmem with ⟨r, hr, hurl⟩
        exact h2.1 r hr (by rw [hurl]; exact List.mem_cons_self _ _)

theorem sortRows_perm (l : List Row) : List.Perm (sortRows l) l :=
  List.perm_insertionSort _ _

theorem sortRows_of_sortRows (l : List Row) : sortRows (sortRows l) = sortRows l :=
  List.Sorted.insertionSort_eq (List.sorted_insertionSort _ _)

/-! ### Claim theorems -/

/-- Claim C1: the store merge is idempotent — merging the same batch a
second time against the table produced by the first merge adds 0 items
and returns the first merge's table unchanged. -/
theorem C1_merge_idempotent (existing : List Row) (batch : List Item) :
    dedup_merge (dedup_merge existing batch).1 batch =
      ((dedup_merge existing batch).1, 0) := by
  have hmem : ∀ it ∈ batch, it.url ∈ existingUrls (dedup_merge existing batch).1 := by
    intro it hit
    have hperm : List.Perm (dedup_merge existing batch).1
        (existing ++ (mergeLoop (existingUrls existing) batch).1) :=
      sortRows_perm _
    have hmap : List.Perm (existingUrls (dedup_merge existing batch).1)
        (existingUrls (existing ++ (mergeLoop (existingUrls existing) batch).1)) :=
      hperm.map _
    rw [hmap.mem_iff]
    unfold existingUrls
    rw [List.map_append, List.mem_append]
    exact mergeLoop_url_covered (existingUrls existing) batch it hit
  have h0 : mergeLoop (existingUrls (dedup_merge existing batch).1) batch = ([], 0) :=
    mergeLoop_eq_nil _ _ hmem
  show (sortRows ((dedup_merge existing batch).1 ++
          (mergeLoop (existingUrls (dedup_merge existing batch).1) batch).1),
        (mergeLoop (existingUrls (dedup_merge existing batch).1) batch).2) = _
  rw [h0]
  show (sortRows ((dedup_merge existing batch).1 ++ []), 0) = _
  rw [List.append_nil]
  show (sortRows (sortRows (existing ++ _)), 0) = _
  rw [sortRows_of_sortRows]
  exact rfl

/-- Claim C2: the merge identity is the raw, non-canonicalized url string.
Merging an item whose url exactly matches an existing row's url adds 0
and leaves the table's rows unchanged (up to the re-sort); merging an
item whose url is a fresh string differing from an existing url only by a
trailing slash appends it and counts 1. -/
theorem C2_merge_raw_url_identity (existing : List Row) (it : Item) :
    (it.url ∈ existingUrls existing →
      (dedup_merge existing [it]).2 = 0 ∧
        List.Perm (dedup_merge existing [it]).1 existing) ∧
    (it.url ∉ existingUrls existing → (∃ r ∈ existing, it.url = r.url ++ "/") →
      (dedup_merge existing [it]).2 = 1 ∧
        List.Perm (dedup_merge existing [it]).1 (existing ++ [rowOfItem it])) := by
  constructor
  · intro hin
    have h1 : mergeLoop (existingUrls existing) [it] = ([], 0) := by
      simp [mergeLoop, hin]
    refine ⟨?_, ?_⟩
    · show (mergeLoop (existingUrls existing) [it]).2 = 0
      rw [h1]
    · show List.Perm (sortRows (existing ++ (mergeLoop (existingUrls existing) [it]).1)) existing
      rw [h1]
      simpa using sortRows_perm existing
  · intro hnin _
    have h1 : mergeLoop (existingUrls existing) [it] = ([rowOfItem it], 1) := by
      simp [mergeLoop, hnin]
    refine ⟨?_, ?_⟩
    · show (mergeLoop (existingUrls existing) [it]).2 = 1
      rw [h1]
    · show List.Perm (sortRows (existing ++ (mergeLoop (existingUrls existing) [it]).1))
        (existing ++ [rowOfItem it])
      rw [h1]
      exact sortRows_perm _

/-- Sample store row used by concrete witnesses. -/
def rowX : Row :=
  { title := "工信部发布新政策", publisher := "MIIT", url := "https://a.example/x",
    pubDate := "2026-01-01", source := "MIIT-首页-最新政策",
    fetchedAt := "2026-10-01T08:00:00+08:00" }

/-- Sample batch item whose url exactly equals `rowX`'s url. -/
def itemSame : Item :=
  { title := "工信部发布新政策", publisher := "MIIT", url := "https://a.example/x",
    pub_date := some "2026-01-02", source := "MIIT-首页-最新政策",
    fetched_at := "2026-10-02T08:00:00+08:00" }

/-- Sample batch item whose url differs from `rowX`'s only by a trailing
slash. -/
def itemSlash : Item :=
  { title := "工信部发布新政策", publisher := "MIIT", url := "https://a.example/x/",
    pub_date := some "2026-01-02", source := "MIIT-首页-最新政策",
    fetched_at := "2026-10-02T08:00:00+08:00" }

theorem C2_witness :
    ((dedup_merge [rowX] [itemSame]).2 = 0 ∧
      List.Perm (dedup_merge [rowX] [itemSame]).1 [rowX]) ∧
    ((dedup_merge [rowX] [itemSlash]).2 = 1 ∧
      List.Perm (dedup_merge [rowX] [itemSlash]).1 ([rowX] ++ [rowOfItem itemSlash])) :=
  ⟨(C2_merge_raw_url_identity [rowX] itemSame).1 (by decide),
   (C2_merge_raw_url_identity [rowX] itemSlash).2 (by decide)
     ⟨rowX, List.mem_cons_self _ _, by decide⟩⟩

/-- Claim C9: the merge loses no existing row; every appended row has a
url absent from the existing table, appended urls are pairwise distinct
(batch duplicates collapse), and the merged table is exactly the existing
rows plus the appended rows, re-ordered. -/
theorem C9_merge_frame (existing : List Row) (batch : List Item) :
    (∀ r ∈ existing, r ∈ (dedup_merge existing batch).1) ∧
    (∀ r ∈ (mergeLoop (existingUrls existing) batch).1,
        r.url ∉ existingUrls existing) ∧
    ((mergeLoop (existingUrls existing) batch).1.map (fun r => r.url)).Nodup ∧
    List.Perm (dedup_merge existing batch).1
      (existing ++ (mergeLoop (existingUrls existing) batch).1) := by
  have hperm : List.Perm (dedup_merge existing batch).1
      (existing ++ (mergeLoop (existingUrls existing) batch).1) := sortRows_perm _
  refine ⟨?_, (mergeLoop_fresh _ _).1, (mergeLoop_fresh _ _).2, hperm⟩
  intro r hr
  exact hperm.mem_iff.mpr (List.mem_append.mpr (Or.inl hr))

theorem C9_witness :
    rowX ∈ (dedup_merge [rowX] [itemSlash, itemSlash]).1 ∧
    (∀ r ∈ (mergeLoop (existingUrls [rowX]) [itemSlash, itemSlash]).1,
        r.url ∉ existingUrls [rowX]) ∧
    ((mergeLoop (existingUrls [rowX]) [itemSlash, itemSlash]).1.map
        (fun r => r.url)).Nodup ∧
    List.Perm (dedup_merge [rowX] [itemSlash, itemSlash]).1
      ([rowX] ++ (mergeLoop (existingUrls [rowX]) [itemSlash, itemSlash]).1) :=
  ⟨(C9_merge_frame [rowX] [itemSlash, itemSlash]).1 rowX (List.mem_cons_self _ _),
   (C9_merge_frame [rowX] [itemSlash, itemSlash]).2.1,
   (C9_merge_frame [rowX] [itemSlash, itemSlash]).2.2.1,
   (C9_merge_frame [rowX] [itemSlash, itemSlash]).2.2.2⟩

/-- Claim C3 (code bug): a fixed-pattern match with an out-of-range
component is NOT rejected — `f"{y:04d}-{mo:02d}-{d:02d}"` never raises,
so the dead `except` branch is skipped and the invalid date string is
returned instead of `None`, contradicting the spec (and the source's own
guard intent). -/
theorem C3_out_of_range_month_returned :
    extract_date (fun _ => none) "2026-13-05" = some "2026-13-05" := by decide

/-- Claim C10: a non-empty `pub_date` string that the permissive parser
cannot parse at all makes `within_window` return `True` regardless of
`now`, `window_days` and `hard_cap_days`. -/
theorem C10_unparseable_date_passes (parse : String → Option Int) (s : String)
    (now window_days hard_cap_days : Int) (h : parse s = none) :
    within_window parse (some s) now window_days hard_cap_days = true := by
  simp [within_window, h]

theorem C10_witness :
    within_window parseIsoDate (some "发布时间待定") 20738 3 14 = true :=
  C10_unparseable_date_passes parseIsoDate "发布时间待定" 20738 3 14 (by decide)

/-- Claim C4: with a 14-day hard cap an item dated exactly 14 days before
`now` passes `within_window` and one dated 15 days before fails; an item
with no resolved date passes the gate (home-page sources), while on the
search-API path an entry whose time cannot be resolved is dropped at
date-resolution time; and `window_days` imposes no additional
restriction (the gate's value is independent of it). -/
theorem C4_window_gate :
    (∀ (parse : String → Option Int) (s : String) (now w d : Int),
        parse s = some d → d = now - 14 →
        within_window parse (some s) now w 14 = true) ∧
    (∀ (parse : String → Option Int) (s : String) (now w d : Int),
        parse s = some d → d = now - 15 →
        within_window parse (some s) now w 14 = false) ∧
    (∀ (parse : String → Option Int) (now w hc : Int),
        within_window parse none now w hc = true) ∧
    (∀ (absParse : String → Option Int) (title url time_ pub : String)
        (now thr : Int) (q fa : String),
        parseQQTime absParse time_ now = none →
        qqnewsProcessEntry absParse title url time_ pub now thr q fa = none) ∧
    (∀ (parse : String → Option Int) (pd : Option String) (now w w2 hc : Int),
        within_window parse pd now w hc = within_window parse pd now w2 hc) := by
  refine ⟨?_, ?_, ?_, ?_, ?_⟩
  · intro parse s now w d hp hd
    have hb : now - 14 ≤ d ∧ d ≤ now := by omega
    simp [within_window, hp, hb.1, hb.2]
  · intro parse s now w d hp hd
    have hb : ¬ (now - 14 ≤ d ∧ d ≤ now) := by omega
    simp [within_window, hp, hb]
    omega
  · intro parse now w hc
    rfl
  · intro absParse title url time_ pub now thr q fa h
    simp [qqnewsProcessEntry, h]
  · intro parse pd now w w2 hc
    cases pd with
    | none => rfl
    | some s =>
      simp only [within_window]
      cases hp : parse s with
      | none => rfl
      | some d =>
        by_cases hb : (now - hc ≤ d ∧ d ≤ now) <;> simp [hb]

theorem C4_witness :
    within_window parseIsoDate (some "2026-09-28") 20738 3 14 = true ∧
    within_window parseIsoDate (some "2026-09-27") 20738 3 14 = false ∧
    within_window parseIsoDate none 20738 3 14 = true ∧
    qqnewsProcessEntry parseIsoMinutes "工信部政策" "https://news.example/q" "昨天下午"
      "新华社" 29862720 29841120 "工信微报" "2026-10-12T12:00:00+08:00" = none ∧
    within_window parseIsoDate (some "2026-09-28") 20738 3 14 =
      within_window parseIsoDate (some "2026-09-28") 20738 9999 14 :=
  ⟨C4_window_gate.1 parseIsoDate "2026-09-28" 20738 3 20724 (by decide) (by decide),
   C4_window_gate.2.1 parseIsoDate "2026-09-27" 20738 3 20723 (by decide) (by decide),
   C4_window_gate.2.2.1 parseIsoDate 20738 3 14,
   C4_window_gate.2.2.2.1 parseIsoMinutes "工信部政策" "https://news.example/q" "昨天下午"
     "新华社" 29862720 29841120 "工信微报" "2026-10-12T12:00:00+08:00" (by decide),
   C4_window_gate.2.2.2.2 parseIsoDate (some "2026-09-28") 20738 3 9999 14⟩

theorem intraDedup_pair (parse : String → Option Int) (it1 it2 : Item)
    (hk : canonicalize_url_for_dedup it1.url = canonicalize_url_for_dedup it2.url) :
    intraDedup parse [it1, it2] = [tieBreak parse it1 it2] := by
  simp [intraDedup, dedupInsert, hk]

/-- Claim C5: intra-batch dedup tie-break for two items sharing a
canonical key — a dated item beats an undated one, of two dated items the
chronologically later survives, and otherwise the first-seen item is
kept. -/
theorem C5_intra_dedup_tiebreak (parse : String → Option Int) (it1 it2 : Item)
    (hk : canonicalize_url_for_dedup it1.url = canonicalize_url_for_dedup it2.url) :
    (pdTruthy it1.pub_date = false → pdTruthy it2.pub_date = true →
      intraDedup parse [it1, it2] = [it2]) ∧
    (∀ a b : Int, pdTruthy it1.pub_date = true → pdTruthy it2.pub_date = true →
      parse (it2.pub_date.getD "") = some a → parse (it1.pub_date.getD "") = some b →
      intraDedup parse [it1, it2] = [if b < a then it2 else it1]) ∧
    (pdTruthy it2.pub_date = false → intraDedup parse [it1, it2] = [it1]) := by
  have hpair := intraDedup_pair parse it1 it2 hk
  refine ⟨?_, ?_, ?_⟩
  · intro h1 h2
    rw [hpair]
    simp [tieBreak, h1, h2]
  · intro a b h1 h2 hpa hpb
    rw [hpair]
    simp only [tieBreak, h1, h2, hpa, hpb]
    simp
  · intro h2
    rw [hpair]
    simp [tieBreak, h2]

/-- Undated sample item (same canonical key as `itemDatedLate`). -/
def itemUndated : Item :=
  { title := "工信部发布新政策", publisher := "MIIT", url := "http://www.a.cn/p/",
    pub_date := none, source := "s", fetched_at := "f1" }

/-- Early-dated sample item (same canonical key as `itemDatedLate`). -/
def itemDatedEarly : Item :=
  { title := "工信部发布新政策", publisher := "MIIT", url := "http://www.a.cn/p/",
    pub_date := some "2026-01-05", source := "s", fetched_at := "f1" }

/-- Late-dated sample item. -/
def itemDatedLate : Item :=
  { title := "工信部发布新政策更新", publisher := "MIIT", url := "https://a.cn/p",
    pub_date := some "2026-01-10", source := "s", fetched_at := "f2" }

theorem C5_witness :
    intraDedup parseIsoDate [itemUndated, itemDatedLate] = [itemDatedLate] ∧
    intraDedup parseIsoDate [itemDatedEarly, itemDatedLate] = [itemDatedLate] ∧
    intraDedup parseIsoDate [itemDatedLate, itemDatedEarly] = [itemDatedLate] := by
  have h1 := (C5_intra_dedup_tiebreak parseIsoDate itemUndated itemDatedLate
    (by decide)).1 (by decide) (by decide)
  have h2 := (C5_intra_dedup_tiebreak parseIsoDate itemDatedEarly itemDatedLate
    (by decide)).2.1 20463 20458 (by decide) (by decide) (by decide) (by decide)
  have h3 := (C5_intra_dedup_tiebreak parseIsoDate itemDatedLate itemDatedEarly
    (by decide)).2.1 20458 20463 (by decide) (by decide) (by decide) (by decide)
  refine ⟨h1, ?_, ?_⟩
  · rw [h2]
    decide
  · rw [h3]
    decide

/-- Claim C7 counterexample: an href carrying a scheme other than
http/https (here `ftp:`) is not returned unchanged but slash-joined onto
the base; and a root-relative href is joined onto the full base (path
segment included), not onto the base's scheme+host. -/
theorem C7_counterexample :
    ((urlsplitL "ftp://a.example/f".data).1 ≠ [] ∧
      normalize_url "https://b.example" "ftp://a.example/f" ≠ "ftp://a.example/f" ∧
      normalize_url "https://b.example" "ftp://a.example/f" =
        "https://b.example/ftp://a.example/f") ∧
    (normalize_url "https://h.example/dir" "/x" = "https://h.example/dir/x" ∧
      normalize_url "https://h.example/dir" "/x" ≠ "https://h.example/x") := by
  refine ⟨⟨?_, ?_, ?_⟩, ?_, ?_⟩ <;> decide

/-- Claim C7 (amended): `normalize_url` returns the trimmed href
unchanged exactly when it starts with `http://` or `https://` (not for
arbitrary schemes); prefixes `https:` when it starts with `//`; joins an
href starting with `/` onto the base with trailing slashes stripped (the
full base, not just its scheme+host); otherwise slash-joins the href off
the stripped base. -/
theorem C7_normalize_url_cases (base href : String) :
    (startsWithL (stripWS href.data) "http://".data = true →
      normalize_url base href = String.mk (stripWS href.data)) ∧
    (startsWithL (stripWS href.data) "https://".data = true →
      normalize_url base href = String.mk (stripWS href.data)) ∧
    (startsWithL (stripWS href.data) "http://".data = false →
      startsWithL (stripWS href.data) "https://".data = false →
      startsWithL (stripWS href.data) "//".data = true →
      normalize_url base href = String.mk ("https:".data ++ stripWS href.data)) ∧
    (startsWithL (stripWS href.data) "http://".data = false →
      startsWithL (stripWS href.data) "https://".data = false →
      startsWithL (stripWS href.data) "//".data = false →
      startsWithL (stripWS href.data) "/".data = true →
      normalize_url base href = String.mk (rstripSlash base.data ++ stripWS href.data)) ∧
    (startsWithL (stripWS href.data) "http://".data = false →
      startsWithL (stripWS href.data) "https://".data = false →
      startsWithL (stripWS href.data) "//".data = false →
      startsWithL (stripWS href.data) "/".data = false →
      normalize_url base href = String.mk (rstripSlash base.data ++ '/' :: stripWS href.data)) := by
  refine ⟨?_, ?_, ?_, ?_, ?_⟩
  · intro h1
    simp [normalize_url, h1]
  · intro h1
    simp [normalize_url, h1]
  · intro h1 h2 h3
    simp [normalize_url, h1, h2, h3]
  · intro h1 h2 h3 h4
    simp [normalize_url, h1, h2, h3, h4]
  · intro h1 h2 h3 h4
    simp [normalize_url, h1, h2, h3, h4]

theorem C7_witness :
    normalize_url "https://h.example/dir" "http://x.example/a" = "http://x.example/a" ∧
    normalize_url "https://h.example/dir" "https://x.example/a" = "https://x.example/a" ∧
    normalize_url "https://h.example/dir" "//x.example/a" = "https://x.example/a" ∧
    normalize_url "https://h.example/dir" "/x" = "https://h.example/dir/x" ∧
    normalize_url "https://h.example/dir/" "rel.htm" = "https://h.example/dir/rel.htm" := by
  refine ⟨?_, ?_, ?_, ?_, ?_⟩
  · rw [(C7_normalize_url_cases "https://h.example/dir" "http://x.example/a").1 (by decide)]
    decide
  · rw [(C7_normalize_url_cases "https://h.example/dir" "https://x.example/a").2.1 (by decide)]
    decide
  · rw [(C7_normalize_url_cases "https://h.example/dir" "//x.example/a").2.2.1
      (by decide) (by decide) (by decide)]
    decide
  · rw [(C7_normalize_url_cases "https://h.example/dir" "/x").2.2.2.1
      (by decide) (by decide) (by decide) (by decide)]
    decide
  · rw [(C7_normalize_url_cases "https://h.example/dir/" "rel.htm").2.2.2.2
      (by decide) (by decide) (by decide) (by decide)]
    decide

/-- Claim C8 counterexample: on the search-API path an entry whose time
string resolves to a future date survives the freshness check (only a
lower bound is enforced), yielding a kept item whose pubDate 2100-01-01
lies after `now` = 2026-10-12 (day 20738; 2100-01-01 is day 47482). -/
theorem C8_counterexample :
    qqnewsProcessEntry parseIsoMinutes "工信部政策发布" "https://news.example/a"
        "2100-01-01" "新华社" 29862720 29841120 "工信微报"
        "2026-10-12T12:00:00+08:00" =
      some { title := "工信部政策发布", publisher := "新华社",
             url := "https://news.example/a", pub_date := some "2100-01-01",
             source := "腾讯新闻搜索-工信微报",
             fetched_at := "2026-10-12T12:00:00+08:00" } ∧
    parseIsoDate "2100-01-01" = some 47482 ∧
    daysFromCivil 2026 10 12 = 20738 ∧ (20738 : Int) < 47482 := by
  refine ⟨?_, ?_, ?_, ?_⟩ <;> decide

/-- Claim C8 (amended): a resolved date that passes `within_window`
satisfies `now - hard_cap_days ≤ d ≤ now` (home-page paths); on the
search-API path a kept item's pubDate is the calendar date of its
resolved time `dt` and only the lower bound `threshold ≤ dt` is enforced
(no upper bound, so future dates can survive, and the hard cap plays no
role there). -/
theorem C8_amended_date_bounds :
    (∀ (parse : String → Option Int) (s : String) (now w hc d : Int),
        parse s = some d →
        within_window parse (some s) now w hc = true →
        now - hc ≤ d ∧ d ≤ now) ∧
    (∀ (absParse : String → Option Int) (title url time_ pub : String)
        (now thr : Int) (q fa : String) (it : Item),
        qqnewsProcessEntry absParse title url time_ pub now thr q fa = some it →
        ∃ dt : Int, parseQQTime absParse time_ now = some dt ∧ thr ≤ dt ∧
          it.pub_date = some (isoOfDay (dt.fdiv 1440))) := by
  constructor
  · intro parse s now w hc d hp hw
    simp [within_window, hp] at hw
    omega
  · intro absParse title url time_ pub now thr q fa it h
    simp only [qqnewsProcessEntry] at h
    by_cases hg : (String.mk (stripWS title.data) = "" ∨ String.mk (stripWS url.data) = "")
    · rw [if_pos hg] at h
      cases h
    · rw [if_neg hg] at h
      revert h
      cases hq : parseQQTime absParse time_ now with
      | none => intro h; cases h
      | some dt =>
        intro h
        replace h : (if dt < thr then (none : Option Item)
            else some { title := String.mk (stripWS title.data), publisher := pub,
                        url := String.mk (stripWS url.data),
                        pub_date := some (isoOfDay (dt.fdiv 1440)),
                        source := "腾讯新闻搜索-" ++ q, fetched_at := fa }) = some it := h
        by_cases hlt : dt < thr
        · rw [if_pos hlt] at h
          cases h
        · rw [if_neg hlt] at h
          refine ⟨dt, rfl, by omega, ?_⟩
          injection h with h3
          subst h3
          rfl

/-- Sample item produced by the search-API path in the `C8` witness. -/
def qqItemOct5 : Item :=
  { title := "工信部政策发布", publisher := "新华社", url := "https://news.example/b",
    pub_date := some "2026-10-05", source := "腾讯新闻搜索-工信微报",
    fetched_at := "2026-10-12T12:00:00+08:00" }

/-! ### Structural lemmas for the canonical key (claim C6) -/

theorem breakWhen_append (p : Char → Bool) (xs : List Char) (y : Char) (ys : List Char)
    (hxs : ∀ x ∈ xs, p x = false) (hy : p y = true) :
    breakWhen p (xs ++ y :: ys) = (xs, y :: ys) := by
  induction xs with
  | nil => simp [breakWhen, hy]
  | cons a l ih =>
    have ha : p a = false := hxs a (List.mem_cons_self _ _)
    have ih2 := ih (fun x hx => hxs x (List.mem_cons_of_mem _ hx))
    simp only [List.cons_append, breakWhen, ha, Bool.false_eq_true, if_false]
    simp [ih2]

theorem stripWS_eq_self (cs : List Char)
    (h1 : ∀ c, cs.head? = some c → c.isWhitespace = false)
    (h2 : ∀ c, cs.getLast? = some c → c.isWhitespace = false) :
    stripWS cs = cs := by
  cases cs with
  | nil => rfl
  | cons a l =>
    have ha : a.isWhitespace = false := h1 a rfl
    unfold stripWS
    rw [List.dropWhile_cons, ha]
    simp only [Bool.false_eq_true, if_false]
    cases hr : (a :: l).reverse with
    | nil => simp at hr
    | cons b m =>
      have hb : b.isWhitespace = false := by
        apply h2
        rw [← List.head?_reverse, hr]
        rfl
      rw [List.dropWhile_cons, hb]
      simp only [Bool.false_eq_true, if_false]
      rw [← hr, List.reverse_reverse]

theorem ws_mem {c : Char} (hw : c.isWhitespace = true) :
    c = ' ' ∨ c = '\t' ∨ c = '\r' ∨ c = '\n' := by
  have h2 : ((c = ' ' ∨ c = '\t') ∨ c = '\x0d') ∨ c = '\n' := by
    simpa [Char.isWhitespace] using hw
  tauto

theorem alpha_not_ws {c : Char} (h : c.isAlpha = true) : c.isWhitespace = false := by
  by_cases hw : c.isWhitespace = true
  · rcases ws_mem hw with rfl | rfl | rfl | rfl <;> exact absurd h (by decide)
  · exact Bool.eq_false_iff.mpr hw

theorem alpha_ne_slash {c : Char} (h : c.isAlpha = true) : c ≠ '/' := by
  intro he
  subst he
  exact absurd h (by decide)

theorem schemeChar_ne_colon {c : Char} (h : isSchemeChar c = true) : c ≠ ':' := by
  intro he
  subst he
  exact absurd h (by decide)

theorem startsWithL_slashes_false {c : Char} (l : List Char) (hc : c ≠ '/') :
    startsWithL (c :: l) "//".data = false := by
  apply decide_eq_false
  intro hcont
  have hcont2 : List.take 2 (c :: l) = ['/', '/'] := hcont
  rw [List.take_succ_cons] at hcont2
  injection hcont2 with h1 h2
  exact hc h1

theorem slashStrip_slash_cons (pr : List Char) :
    ∃ t, slashStrip ('/' :: pr) = '/' :: t := by
  unfold slashStrip
  by_cases hc : (('/' :: pr) ≠ ['/'] ∧ ('/' :: pr).getLast? = some '/')
  · rw [if_pos hc]
    cases pr with
    | nil => exact absurd rfl hc.1
    | cons b l =>
      rw [List.dropLast_cons₂]
      exact ⟨_, rfl⟩
  · rw [if_neg hc]
    exact ⟨pr, rfl⟩

theorem urlunsplitL_slash_path (nl t q' : List Char) (hnl : nl ≠ []) :
    urlunsplitL nl ('/' :: t) q' =
      '/' :: '/' :: (nl ++ ('/' :: t) ++ queryPart q') := by
  simp only [urlunsplitL, queryPart, if_pos (Or.inl hnl)]
  cases q' with
  | nil => simp
  | cons a m => simp

/-- The `urlsplit` model on a fully structured absolute URL
`scheme://host/path?query#fragment`: the scheme is recognized and
lower-cased, the host is everything up to the first delimiter, the first
`#` starts the fragment and the first `?` of what precedes it starts the
query. -/
theorem urlsplitL_structured (c : Char) (s' h pr q f : List Char)
    (hsOK : schemeOK (c :: s') = true)
    (hh : ∀ x ∈ h, netlocDelim x = false)
    (hpr : ∀ x ∈ pr, x ≠ '?' ∧ x ≠ '#')
    (hq : ∀ x ∈ q, x ≠ '#') :
    urlsplitL ((c :: s') ++ ':' :: '/' :: '/' :: (h ++ '/' :: (pr ++ '?' :: (q ++ '#' :: f)))) =
      ((c :: s').map Char.toLower, h, '/' :: pr, q, f) := by
  have hall : ((c :: s').all isSchemeChar) = true := by
    have := hsOK
    simp only [schemeOK, Bool.and_eq_true] at this
    exact this.2
  have hb1 : breakWhen (fun x => x = ':')
      ((c :: s') ++ ':' :: '/' :: '/' :: (h ++ '/' :: (pr ++ '?' :: (q ++ '#' :: f)))) =
      (c :: s', ':' :: '/' :: '/' :: (h ++ '/' :: (pr ++ '?' :: (q ++ '#' :: f)))) :=
    breakWhen_append _ _ _ _
      (fun x hx => decide_eq_false (schemeChar_ne_colon (List.all_eq_true.mp hall x hx)))
      (by decide)
  have hb2 : breakWhen netlocDelim (h ++ '/' :: (pr ++ '?' :: (q ++ '#' :: f))) =
      (h, '/' :: (pr ++ '?' :: (q ++ '#' :: f))) :=
    breakWhen_append _ _ _ _ hh (by decide)
  have hb3 : breakWhen (fun x => x = '#') ('/' :: (pr ++ '?' :: (q ++ '#' :: f))) =
      ('/' :: (pr ++ '?' :: q), '#' :: f) := by
    have hsh : ('/' : Char) :: (pr ++ '?' :: (q ++ '#' :: f)) =
        ('/' :: (pr ++ '?' :: q)) ++ '#' :: f := by simp
    rw [hsh]
    apply breakWhen_append
    · intro x hx
      simp only [List.mem_cons, List.mem_append] at hx
      rcases hx with rfl | hx | rfl | hx
      · decide
      · exact decide_eq_false (hpr x hx).2
      · decide
      · exact decide_eq_false (hq x hx)
    · decide
  have hb4 : breakWhen (fun x => x = '?') ('/' :: (pr ++ '?' :: q)) = ('/' :: pr, '?' :: q) := by
    have hsh : ('/' : Char) :: (pr ++ '?' :: q) = ('/' :: pr) ++ '?' :: q := by simp
    rw [hsh]
    apply breakWhen_append
    · intro x hx
      rcases List.mem_cons.mp hx with rfl | hx2
      · decide
      · exact decide_eq_false (hpr x hx2).1
    · decide
  simp only [urlsplitL, hb1, hsOK, if_true, hb2, hb3, hb4, List.drop_succ_cons,
    List.drop_zero]

/-- The canonical key of a fully structured absolute URL: the scheme and
fragment are dropped, the host is lower-cased and loses a leading `www.`,
the path keeps its shape (one trailing slash handled by `slashStrip`),
and the query survives verbatim. -/
theorem canonKeyL_structured (c : Char) (s' h pr q f : List Char)
    (hsOK : schemeOK (c :: s') = true)
    (hh : ∀ x ∈ h, netlocDelim x = false)
    (hpr : ∀ x ∈ pr, x ≠ '?' ∧ x ≠ '#')
    (hq : ∀ x ∈ q, x ≠ '#')
    (hf : ∀ x, f.getLast? = some x → x.isWhitespace = false)
    (hne : wwwStrip (h.map Char.toLower) ≠ []) :
    canonKeyL ((c :: s') ++ ':' :: '/' :: '/' :: (h ++ '/' :: (pr ++ '?' :: (q ++ '#' :: f)))) =
      '/' :: '/' :: (wwwStrip (h.map Char.toLower) ++ slashStrip ('/' :: pr) ++ queryPart q) := by
  have hc : c.isAlpha = true := by
    have := hsOK
    simp only [schemeOK, Bool.and_eq_true] at this
    exact this.1
  have hhead : ∀ d, ((c :: s') ++ ':' :: '/' :: '/' ::
      (h ++ '/' :: (pr ++ '?' :: (q ++ '#' :: f)))).head? = some d →
      d.isWhitespace = false := by
    intro d hd
    rw [List.cons_append] at hd
    have : d = c := by
      injection hd with h2
      exact h2.symm
    subst this
    exact alpha_not_ws hc
  have hlast : ∀ d, ((c :: s') ++ ':' :: '/' :: '/' ::
      (h ++ '/' :: (pr ++ '?' :: (q ++ '#' :: f)))).getLast? = some d →
      d.isWhitespace = false := by
    have hsh : (c :: s') ++ ':' :: '/' :: '/' :: (h ++ '/' :: (pr ++ '?' :: (q ++ '#' :: f))) =
        ((c :: s') ++ ':' :: '/' :: '/' :: (h ++ '/' :: (pr ++ '?' :: q))) ++ '#' :: f := by
      simp
    intro d hd
    rw [hsh, List.getLast?_append_cons] at hd
    cases f with
    | nil =>
      have : d = '#' := by
        simpa using hd.symm
      subst this
      decide
    | cons b f2 =>
      rw [List.getLast?_cons_cons] at hd
      exact hf d hd
  have hstrip : stripWS ((c :: s') ++ ':' :: '/' :: '/' ::
      (h ++ '/' :: (pr ++ '?' :: (q ++ '#' :: f)))) =
      (c :: s') ++ ':' :: '/' :: '/' :: (h ++ '/' :: (pr ++ '?' :: (q ++ '#' :: f))) :=
    stripWS_eq_self _ hhead hlast
  have hss : startsWithL ((c :: s') ++ ':' :: '/' :: '/' ::
      (h ++ '/' :: (pr ++ '?' :: (q ++ '#' :: f)))) "//".data = false := by
    rw [List.cons_append]
    exact startsWithL_slashes_false _ (alpha_ne_slash hc)
  have hproto : protoRel ((c :: s') ++ ':' :: '/' :: '/' ::
      (h ++ '/' :: (pr ++ '?' :: (q ++ '#' :: f)))) =
      (c :: s') ++ ':' :: '/' :: '/' :: (h ++ '/' :: (pr ++ '?' :: (q ++ '#' :: f))) := by
    simp only [protoRel, hss, Bool.false_eq_true, if_false]
  have hsplit := urlsplitL_structured c s' h pr q f hsOK hh hpr hq
  obtain ⟨t, ht⟩ := slashStrip_slash_cons pr
  unfold canonKeyL
  rw [hstrip, hproto, hsplit]
  simp only [emptyToRoot]
  rw [if_neg (by simp)]
  rw [ht, urlunsplitL_slash_path _ _ _ hne, ← ht]

/-- Claim C6: the canonical dedup key lower-cases the host, strips a
leading `www.`, drops the fragment, strips a single trailing slash
unless the path is exactly `/`, drops the scheme and keeps the query
verbatim; in particular the keys of `http://WWW.Example.com/a/` and
`https://example.com/a` coincide. -/
theorem C6_canonical_key_equiv (s h pr q f : List Char)
    (hs : schemeOK s = true)
    (hh : ∀ x ∈ h, netlocDelim x = false)
    (hpr : ∀ x ∈ pr, x ≠ '?' ∧ x ≠ '#')
    (hq : ∀ x ∈ q, x ≠ '#')
    (hf : ∀ x, f.getLast? = some x → x.isWhitespace = false)
    (hne : wwwStrip (h.map Char.toLower) ≠ []) :
    canonicalize_url_for_dedup
        (String.mk (s ++ ':' :: '/' :: '/' :: (h ++ '/' :: (pr ++ '?' :: (q ++ '#' :: f))))) =
      String.mk ('/' :: '/' ::
        (wwwStrip (h.map Char.toLower) ++ slashStrip ('/' :: pr) ++ queryPart q)) ∧
    canonicalize_url_for_dedup "http://WWW.Example.com/a/" =
      canonicalize_url_for_dedup "https://example.com/a" := by
  constructor
  · cases s with
    | nil => exact absurd hs (by decide)
    | cons c s' =>
      exact congrArg String.mk (canonKeyL_structured c s' h pr q f hs hh hpr hq hf hne)
  · decide

theorem C6_witness :
    canonicalize_url_for_dedup "http://WWW.Example.com/a/?x=1#sec" = "//example.com/a?x=1" ∧
    canonicalize_url_for_dedup "http://WWW.Example.com/a/" =
      canonicalize_url_for_dedup "https://example.com/a" := by
  have h := C6_canonical_key_equiv "http".data "WWW.Example.com".data ['a', '/']
    "x=1".data "sec".data (by decide) (by decide) (by decide) (by decide)
    (by intro x hx; cases hx; decide) (by decide)
  constructor
  · have e1 : "http://WWW.Example.com/a/?x=1#sec" =
        String.mk ("http".data ++ ':' :: '/' :: '/' ::
          ("WWW.Example.com".data ++ '/' :: (['a', '/'] ++ '?' :: ("x=1".data ++ '#' :: "sec".data)))) := by
      decide
    rw [e1, h.1]
    decide
  · exact h.2

theorem C8_witness :
    ((20738 : Int) - 14 ≤ 20731 ∧ (20731 : Int) ≤ 20738) ∧
    (∃ dt : Int, parseQQTime parseIsoMinutes "2026-10-05" 29862720 = some dt ∧
      (29841120 : Int) ≤ dt ∧ qqItemOct5.pub_date = some (isoOfDay (dt.fdiv 1440))) :=
  ⟨C8_amended_date_bounds.1 parseIsoDate "2026-10-05" 20738 3 14 20731
      (by decide) (by decide),
   C8_amended_date_bounds.2 parseIsoMinutes "工信部政策发布" "https://news.example/b"
      "2026-10-05" "新华社" 29862720 29841120 "工信微报" "2026-10-12T12:00:00+08:00"
      qqItemOct5 (by decide)⟩

end Collect
